import Mathlib

/-!
# A verification development for the multi-list to-do application

This file shallowly embeds the core logic of the application (`src/src/App.tsx`
and its variant `src/unnamed/part_000`): the data model, the free-text
ingestion parser and router, the drag-and-drop handlers, list removal, the
deferred task delete, and the search predicate.

Modelling conventions:
* `uid()` (a random unique string) is modelled as a fresh natural number drawn
  from a counter `nextId`; `Date.now()` is modelled as a fixed `now : Nat`
  for the duration of one event handler.
* React state semantics: within one event handler, plain reads of the `lists`
  state variable (e.g. in `findListByName`, `activeList`) see the render-time
  snapshot, while every `setLists(fn)` is a functional update; the queued
  updates are applied in order to produce the post-handler state.  Creations
  performed during a handler are therefore modelled as a list `created` of
  new containers appended after the snapshot.
* JavaScript strings are modelled as Lean `String`s; `toLowerCase`, `trim`,
  `includes`, `split` are modelled character-wise (ASCII-faithful).
-/

set_option autoImplicit false

namespace Todo

/-- Model of the `ID` type (`uid()` strings), as counter-generated naturals. -/
abbrev ID := Nat

/-- `type Priority = "low" | "med" | "high"`. -/
inductive Priority where
  | low | med | high
deriving DecidableEq, Repr

/-- `interface Task` from the source. `due?: string` is an optional ISO date. -/
structure Task where
  id : ID
  text : String
  completed : Bool
  priority : Priority
  due : Option String
  tags : List String
  createdAt : Nat
deriving DecidableEq, Repr

/-- `interface List` from the source (renamed: `List` is taken in Lean). -/
structure TodoList where
  id : ID
  name : String
  tasks : List Task
  autoResetMidnight : Bool
  archived : Option Bool
deriving DecidableEq, Repr

/-- `type IngestMode = "single" | "group"`. -/
inductive IngestMode where
  | single | group
deriving DecidableEq, Repr

/-- `type IngestTarget = "auto" | "inbox" | "today" | "active"`. -/
inductive IngestTarget where
  | auto | inbox | today | active
deriving DecidableEq, Repr

/-- The render-time snapshot of the component state relevant to the handlers:
the `lists` state, the `activeListId` state, the `uid()` counter and the
clock value used for `Date.now()`. -/
structure AppState where
  lists : List TodoList
  activeListId : ID
  nextId : Nat
  now : Nat
deriving DecidableEq, Repr

/-- The write-side accumulator of one event handler: containers created by
queued `setLists((ls) => [...ls, newList])` updates, in order, plus the
advanced `uid()` counter. -/
structure Created where
  created : List TodoList
  nextId : Nat
deriving DecidableEq, Repr

/-! ## Character-level string helpers (JS semantics) -/

/-- JS `String.prototype.trim`, character-wise. -/
def jsTrim (s : String) : String :=
  String.mk (((s.toList.dropWhile Char.isWhitespace).reverse.dropWhile
    Char.isWhitespace).reverse)

/-- JS `String.prototype.toLowerCase` (ASCII-faithful). -/
def jsLower (s : String) : String :=
  String.mk (s.toList.map Char.toLower)

/-- `const norm = (s) => s.toLowerCase().trim();` -/
def norm (s : String) : String :=
  jsTrim (jsLower s)

/-- JS `haystack.includes(needle)`: substring test. -/
def jsIncludes (haystack needle : String) : Bool :=
  decide (needle.toList <:+: haystack.toList)

/-- `raw.replace(/\r\n/g, "\n")`, character-wise. -/
def replaceCRLF : List Char → List Char
  | [] => []
  | '\r' :: '\n' :: rest => '\n' :: replaceCRLF rest
  | c :: rest => c :: replaceCRLF rest

/-- JS `s.split("\n")` (keeps empty segments). -/
def splitNL : List Char → List (List Char)
  | [] => [[]]
  | '\n' :: rest => [] :: splitNL rest
  | c :: rest =>
    match splitNL rest with
    | s :: ss => (c :: s) :: ss
    | [] => [[c]]

/-- The parser preprocessing:
`raw.replace(/\r\n/g,"\n").split("\n").map((s) => s.trim()).filter(Boolean)`. -/
def parseLines (raw : String) : List String :=
  ((splitNL (replaceCRLF raw.toList)).map (fun cs => jsTrim (String.mk cs))).filter
    (fun s => s ≠ "")

/-! ## Lookup helpers -/

/-- JS `lists.find((l) => l.id === i)`. -/
def findById : List TodoList → ID → Option TodoList
  | [], _ => none
  | l :: rest, i => if l.id = i then some l else findById rest i

/-- `findListIdByTask`: scan all lists, return the id of the first list whose
tasks contain the given task id (`l.tasks.some((t) => t.id === taskId)`). -/
def findListIdByTask : List TodoList → ID → Option ID
  | [], _ => none
  | l :: rest, tid =>
    if ∃ t ∈ l.tasks, t.id = tid then some l.id else findListIdByTask rest tid

/-- JS `tasks.find((t) => t.id === tid)`. -/
def findTaskById : List Task → ID → Option Task
  | [], _ => none
  | t :: rest, tid => if t.id = tid then some t else findTaskById rest tid

/-- The index of the first task with the given id, if any. -/
def idxOfById : List Task → ID → Option Nat
  | [], _ => none
  | t :: rest, tid =>
    if t.id = tid then some 0 else (idxOfById rest tid).map (· + 1)

/-- JS `tasks.findIndex((t) => t.id === tid)`: the index, or `-1`. -/
def jsFindIndex (tasks : List Task) (tid : ID) : Int :=
  match idxOfById tasks tid with
  | some n => (n : Int)
  | none => -1

/-- `findListByName`: case-insensitive, trimmed name lookup
(`lists.find((l) => l.name.trim().toLowerCase() === name.trim().toLowerCase())`).
Reads the render snapshot. -/
def findListByName (snap : List TodoList) (name : String) : Option TodoList :=
  snap.find? (fun l => jsLower (jsTrim l.name) == jsLower (jsTrim name))

/-- `getOrCreateListByName`: reuse an existing same-named list from the
snapshot, else queue `setLists((ls) => [...ls, { id, name, tasks: [], ... }])`
and return the fresh id. -/
def getOrCreateListByName (snap : List TodoList) (c : Created) (name : String) :
    ID × Created :=
  match findListByName snap name with
  | some hit => (hit.id, c)
  | none =>
    (c.nextId,
      { created := c.created ++
          [{ id := c.nextId, name := name, tasks := [], autoResetMidnight := false,
             archived := none }],
        nextId := c.nextId + 1 })

/-- `ensureTodayId` (App.tsx variant): `getOrCreateListByName("Today")`. -/
def ensureTodayId (snap : List TodoList) (c : Created) : ID × Created :=
  getOrCreateListByName snap c "Today"

/-- `ensureInboxId`: `getOrCreateListByName("Inbox")`. -/
def ensureInboxId (snap : List TodoList) (c : Created) : ID × Created :=
  getOrCreateListByName snap c "Inbox"

/-- `findTodayId` (part_000 variant): find an existing Today without creating. -/
def findTodayId (snap : List TodoList) : Option ID :=
  (findListByName snap "Today").map (·.id)

/-- `activeList = lists.find((l) => l.id === activeListId) || lists[0]`. -/
def activeList (s : AppState) : Option TodoList :=
  match findById s.lists s.activeListId with
  | some l => some l
  | none => s.lists.head?

/-! ## Task construction -/

/-- `makeTask` from the parser: fresh `uid()`, given text, not completed,
medium priority, no due date, empty tags, `createdAt = Date.now()`. -/
def makeTask (text : String) (now : Nat) (c : Created) : Task × Created :=
  ({ id := c.nextId, text := text, completed := false, priority := .med,
     due := none, tags := [], createdAt := now },
   { c with nextId := c.nextId + 1 })

/-- `lines.map(makeTask)`, threading the `uid()` counter. -/
def makeTasks (texts : List String) (now : Nat) (c : Created) :
    List Task × Created :=
  match texts with
  | [] => ([], c)
  | t :: rest =>
    let (task, c') := makeTask t now c
    let (tasks, c'') := makeTasks rest now c'
    (task :: tasks, c'')

/-! ## Heading and bullet recognition (group mode) -/

/-- `/[:：]\s*$/.test(line)`.  The parser only applies this to trimmed lines,
so the trailing `\s*` is vacuous: the test holds iff the last character is a
half- or full-width colon. -/
def isHeadingLine (line : String) : Bool :=
  line.toList.getLast? = some ':' ∨ line.toList.getLast? = some '：'

/-- `line.replace(/[:：]\s*$/, "").trim()` on a trimmed heading line: drop the
final colon character and re-trim. -/
def stripHeadingColon (line : String) : String :=
  jsTrim (String.mk line.toList.dropLast)

/-- Shared tail of the two bullet alternatives: `\s+(.+)$` followed by
`[1].trim()`.  On a trimmed line, the greedy `\s+` eats all whitespace and the
capture runs to the end of the line, so the result is the remainder after the
whitespace run (nonempty, or no match). -/
def bulletRest (rest : List Char) : Option String :=
  match rest with
  | c :: _ =>
    if c.isWhitespace then
      let content := rest.dropWhile Char.isWhitespace
      if content = [] then none else some (jsTrim (String.mk content))
    else none
  | [] => none

/-- `line.match(/^(?:[-*•]\s+|\d+\.\s+)(.+)$/)`, returning the trimmed capture.
Faithful on the trimmed, nonempty lines the parser feeds it. -/
def bulletMatch (line : String) : Option String :=
  match line.toList with
  | [] => none
  | c :: rest =>
    if c = '-' ∨ c = '*' ∨ c = '•' then bulletRest rest
    else
      let ds := (c :: rest).takeWhile Char.isDigit
      if ds ≠ [] then
        match (c :: rest).drop ds.length with
        | '.' :: rest2 => bulletRest rest2
        | _ => none
      else none

/-! ## The parser -/

/-- `Record<ID, Task[]>`, keeping key insertion order. -/
abbrev TaskMap := List (ID × List Task)

/-- `map[k]` on the record. -/
def lookupMap : TaskMap → ID → Option (List Task)
  | [], _ => none
  | (k, v) :: rest, i => if k = i then some v else lookupMap rest i

/-- `setBucket`: `if (!result[listId]) result[listId] = [];` — add the key with
an empty bucket if absent. -/
def ensureKey (m : TaskMap) (k : ID) : TaskMap :=
  match lookupMap m k with
  | some _ => m
  | none => m ++ [(k, [])]

/-- `result[listId].push(task)`. -/
def pushTask (m : TaskMap) (k : ID) (task : Task) : TaskMap :=
  m.map (fun kv => if kv.1 = k then (kv.1, kv.2 ++ [task]) else kv)

/-- The group-mode loop of `parseTextToTasks`, one step per line, threading the
result record, the `currentListId` bucket, and the created/counter state.
`snap` and `act` are the render snapshot (`lists` and `activeList?.id`),
which the loop's lookups read. -/
def parseGroup (snap : List TodoList) (act : Option ID) (now : Nat) :
    List String → TaskMap → Option ID → Created → TaskMap × Created
  | [], m, _, c => (m, c)
  | line :: rest, m, cur, c =>
    if isHeadingLine line then
      let name0 := stripHeadingColon line
      let name := if name0 = "" then "Untitled" else name0
      let (lid, c') := getOrCreateListByName snap c name
      parseGroup snap act now rest (ensureKey m lid) (some lid) c'
    else
      let text := (bulletMatch line).getD line
      match cur with
      | some lid =>
        let (task, c') := makeTask text now c
        parseGroup snap act now rest (pushTask m lid task) (some lid) c'
      | none =>
        let (lid, c') :=
          match act with
          | some a => (a, c)
          | none => ensureInboxId snap c
        let (task, c'') := makeTask text now c'
        parseGroup snap act now rest (pushTask (ensureKey m lid) lid task)
          (some lid) c''

/-- `parseTextToTasks` (App.tsx variant).  Returns the mapping together with
the containers it created along the way (via `getOrCreateListByName` /
`ensureTodayId` / `ensureInboxId`) and the advanced counter. -/
def parseTextToTasks (s : AppState) (raw : String) (mode : IngestMode)
    (target : IngestTarget) : TaskMap × Created :=
  let lines := parseLines raw
  let c0 : Created := { created := [], nextId := s.nextId }
  let forced : Option (ID × Created) :=
    match target with
    | .inbox => some (ensureInboxId s.lists c0)
    | .today => some (ensureTodayId s.lists c0)
    | .active =>
      some (match activeList s with
            | some l => (l.id, c0)
            | none => ensureInboxId s.lists c0)
    | .auto => none
  match forced with
  | some (fid, c1) =>
    let (tasks, c2) := makeTasks lines s.now c1
    ([(fid, tasks)], c2)
  | none =>
    match mode with
    | .single =>
      let (lid, c1) :=
        match activeList s with
        | some l => (l.id, c0)
        | none => ensureInboxId s.lists c0
      let (tasks, c2) := makeTasks lines s.now c1
      ([(lid, tasks)], c2)
    | .group =>
      parseGroup s.lists ((activeList s).map (·.id)) s.now lines [] none c0

/-- `parseTextToTasks` (part_000 variant): identical except that a `today`
target uses `findTodayId() ?? (activeList?.id ?? ensureInboxId())` instead of
`ensureTodayId()`. -/
def parseTextToTasksP0 (s : AppState) (raw : String) (mode : IngestMode)
    (target : IngestTarget) : TaskMap × Created :=
  let lines := parseLines raw
  let c0 : Created := { created := [], nextId := s.nextId }
  let forced : Option (ID × Created) :=
    match target with
    | .inbox => some (ensureInboxId s.lists c0)
    | .today =>
      some (match findTodayId s.lists with
            | some tid => (tid, c0)
            | none =>
              match activeList s with
              | some l => (l.id, c0)
              | none => ensureInboxId s.lists c0)
    | .active =>
      some (match activeList s with
            | some l => (l.id, c0)
            | none => ensureInboxId s.lists c0)
    | .auto => none
  match forced with
  | some (fid, c1) =>
    let (tasks, c2) := makeTasks lines s.now c1
    ([(fid, tasks)], c2)
  | none =>
    match mode with
    | .single =>
      let (lid, c1) :=
        match activeList s with
        | some l => (l.id, c0)
        | none => ensureInboxId s.lists c0
      let (tasks, c2) := makeTasks lines s.now c1
      ([(lid, tasks)], c2)
    | .group =>
      parseGroup s.lists ((activeList s).map (·.id)) s.now lines [] none c0

/-! ## The router -/

/-- `addParsedTasks`: for each list, if the map holds a nonempty bucket for its
id, prepend the bucket (`tasks: [...incoming, ...l.tasks]`); otherwise leave
the list untouched. -/
def addParsedTasks (m : TaskMap) (ls : List TodoList) : List TodoList :=
  ls.map (fun l =>
    match lookupMap m l.id with
    | none => l
    | some incoming =>
      if incoming = [] then l else { l with tasks := incoming ++ l.tasks })

/-- `handlePaste` (App.tsx variant), as a pure state transformer for a
nonempty clipboard payload `text`: parse, apply, then
`if (target === "today") setActiveListId(ensureTodayId())` (a second,
snapshot-reading `ensureTodayId`), analogously for `inbox`. -/
def handlePaste (s : AppState) (text : String) (mode : IngestMode)
    (target : IngestTarget) : AppState :=
  if text = "" then s
  else
    let (m, c1) := parseTextToTasks s text mode target
    let lists2 := addParsedTasks m (s.lists ++ c1.created)
    match target with
    | .today =>
      let (tid, c2) := ensureTodayId s.lists { created := [], nextId := c1.nextId }
      { s with lists := lists2 ++ c2.created, activeListId := tid,
               nextId := c2.nextId }
    | .inbox =>
      let (iid, c2) := ensureInboxId s.lists { created := [], nextId := c1.nextId }
      { s with lists := lists2 ++ c2.created, activeListId := iid,
               nextId := c2.nextId }
    | _ => { s with lists := lists2, nextId := c1.nextId }

/-- `handlePaste` (part_000 variant): after applying, a `today` target only
switches the active list if a Today list already exists in the snapshot
(`const tid = findTodayId(); if (tid) setActiveListId(tid);`). -/
def handlePasteP0 (s : AppState) (text : String) (mode : IngestMode)
    (target : IngestTarget) : AppState :=
  if text = "" then s
  else
    let (m, c1) := parseTextToTasksP0 s text mode target
    let lists2 := addParsedTasks m (s.lists ++ c1.created)
    match target with
    | .today =>
      (match findTodayId s.lists with
       | some tid =>
         { s with lists := lists2, activeListId := tid, nextId := c1.nextId }
       | none => { s with lists := lists2, nextId := c1.nextId })
    | .inbox =>
      let (iid, c2) := ensureInboxId s.lists { created := [], nextId := c1.nextId }
      { s with lists := lists2 ++ c2.created, activeListId := iid,
               nextId := c2.nextId }
    | _ => { s with lists := lists2, nextId := c1.nextId }

/-! ## Search / filter -/

/-- Split a character list at every character satisfying `p`, keeping empty
segments (as JS `split` does before the empties are filtered away). -/
def splitOnPred (p : Char → Bool) : List Char → List (List Char)
  | [] => [[]]
  | c :: rest =>
    if p c then [] :: splitOnPred p rest
    else
      match splitOnPred p rest with
      | s :: ss => (c :: s) :: ss
      | [] => [[c]]

/-- `search.split(/\s+/).map(norm).filter(Boolean)`: split the query at
whitespace, normalize, drop empties.  (Splitting at single whitespace
characters and filtering empties coincides with splitting at whitespace
runs.) -/
def queryTokens (search : String) : List String :=
  (((splitOnPred Char.isWhitespace search.toList).map
      (fun cs => norm (String.mk cs)))).filter (fun s => s ≠ "")

/-- `taskMatches` over an already-computed token list: every token must match;
a `#`-token is also stripped before the tag comparison; each token matches if
it is a substring of the normalized text or (stripped) equal to a normalized
tag. -/
def taskMatchesTokens (tokens : List String) (t : Task) : Bool :=
  if tokens = [] then true
  else
    let text := norm t.text
    let tags := t.tags.map norm
    tokens.all (fun q =>
      let qTag := if q.toList.head? = some '#' then String.mk (q.toList.drop 1)
                  else q
      jsIncludes text q || tags.contains qTag)

/-- `taskMatches` as used by the app: tokenize the search box value, then
match. -/
def taskMatches (search : String) (t : Task) : Bool :=
  taskMatchesTokens (queryTokens search) t

/-! ## List removal and the active-list repair effect -/

/-- `removeList`: filter the list out; if it was active and the (snapshot)
`lists[0]` exists, point the active reference at that snapshot head's id.
Note the read of `lists[0]` is the pre-removal snapshot head. -/
def removeList (s : AppState) (i : ID) : AppState :=
  let lists' := s.lists.filter (fun l => l.id ≠ i)
  let active' :=
    match (if s.activeListId = i then s.lists.head? else none) with
    | some l0 => l0.id
    | none => s.activeListId
  { s with lists := lists', activeListId := active' }

/-- The `useEffect` that keeps `activeListId` valid:
`if (!lists.find((l) => l.id === activeListId) && lists[0])
  setActiveListId(lists[0].id)`. -/
def ensureActive (s : AppState) : AppState :=
  match findById s.lists s.activeListId with
  | some _ => s
  | none =>
    match s.lists.head? with
    | some l0 => { s with activeListId := l0.id }
    | none => s

/-! ## Drag handlers -/

/-- JS array `splice(i, 0, x)` insertion: the index is clamped to the array
length. -/
def spliceInsert {α : Type} (l : List α) (i : Nat) (x : α) : List α :=
  l.take i ++ [x] ++ l.drop i

/-- `arrayMove` from `@dnd-kit/sortable`:
`newArray.splice(to < 0 ? newArray.length + to : to, 0,
newArray.splice(from, 1)[0])`, with JS `splice` index normalization.  When the
removal index is out of range (never the case at the call site, where it comes
from a successful `findIndex`), the array is returned unchanged. -/
def arrayMove {α : Type} (l : List α) (i j : Int) : List α :=
  let len := l.length
  let r := if i < 0 then ((len : Int) + i).toNat else min i.toNat len
  match l[r]? with
  | none => l
  | some x =>
    let l' := l.take r ++ l.drop (r + 1)
    let ins := if j < 0 then (((l'.length : Int)) + j).toNat
               else min j.toNat l'.length
    l'.take ins ++ [x] ++ l'.drop ins

/-- Resolution of the drop/hover target:
`listIds.includes(overId) ? overId : findListIdByTask(overId)`. -/
def resolveToListId (ls : List TodoList) (overId : ID) : Option ID :=
  if overId ∈ ls.map (·.id) then some overId else findListIdByTask ls overId

/-- `handleDragOver`: the live-preview event.  A no-op unless both endpoints
resolve and differ; otherwise remove the dragged task from the source list and
splice it into the destination at `insertIndex`.  The `!`-asserted lookups of
the source (which are guaranteed by the preceding resolution) fall back to a
no-op here. -/
def handleDragOver (s : AppState) (activeId overId : ID) : AppState :=
  let listIds := s.lists.map (·.id)
  match findListIdByTask s.lists activeId, resolveToListId s.lists overId with
  | some fromListId, some toListId =>
    if fromListId = toListId then s
    else
      match findById s.lists fromListId, findById s.lists toListId with
      | some fromL, some toL =>
        match findTaskById fromL.tasks activeId with
        | none => s
        | some activeTask =>
          let fromTasks := fromL.tasks.filter (fun t => t.id ≠ activeId)
          let overIndex : Int :=
            if overId ∈ listIds then (toL.tasks.length : Int)
            else jsFindIndex toL.tasks overId
          let toTasks := toL.tasks
          let insertIndex := if overIndex < 0 then toTasks.length
                             else overIndex.toNat
          let toTasks' := spliceInsert toTasks insertIndex activeTask
          { s with lists := s.lists.map (fun l =>
              if l.id = fromListId then { l with tasks := fromTasks }
              else if l.id = toListId then { l with tasks := toTasks' }
              else l) }
      | _, _ => s
  | _, _ => s

/-- `handleDragEnd`: the commit event.  Only acts when source and destination
resolve to the same list, reordering within it via `arrayMove` when the old
and new indices differ and the new index is non-negative. -/
def handleDragEnd (s : AppState) (activeId overId : ID) : AppState :=
  let listIds := s.lists.map (·.id)
  match findListIdByTask s.lists activeId, resolveToListId s.lists overId with
  | some fromListId, some toListId =>
    if fromListId = toListId then
      match findById s.lists fromListId with
      | none => s
      | some list =>
        let oldIndex := jsFindIndex list.tasks activeId
        let newIndex : Int :=
          if overId ∈ listIds then max 0 ((list.tasks.length : Int) - 1)
          else jsFindIndex list.tasks overId
        if oldIndex ≠ newIndex ∧ 0 ≤ newIndex then
          { s with lists := s.lists.map (fun l =>
              if l.id = list.id then
                { l with tasks := arrayMove l.tasks oldIndex newIndex }
              else l) }
        else s
    else s
  | _, _ => s

/-- The total number of tasks across the workspace. -/
def countTasks (s : AppState) : Nat :=
  (s.lists.map (fun l => l.tasks.length)).sum

/-! ## Search predicate, as the specification words it

These two definitions follow the specification text (not the code); they are
compared against `taskMatches` in the refinement theorems below. -/

/-- The search predicate as the spec states it: every whitespace-separated
token must match; a token beginning with `#` matches iff the token with the
`#` stripped is exactly equal (case-insensitively) to one of the task's tags;
any other token matches iff it is a case-insensitive substring of the task's
text or exactly equal to one of its tags. -/
def taskMatchesSpec (search : String) (t : Task) : Prop :=
  ∀ q ∈ queryTokens search,
    (q.toList.head? = some '#' →
      ∃ tg ∈ t.tags, jsLower tg = String.mk (q.toList.drop 1))
    ∧ (¬ q.toList.head? = some '#' →
      jsIncludes (jsLower t.text) q = true ∨ ∃ tg ∈ t.tags, jsLower tg = q)

/-- The amended search predicate: as `taskMatchesSpec`, except that (a) a
`#`-prefixed token also matches when the whole token, `#` included, is a
case-insensitive substring of the task's text, and (b) tags are compared after
trimming surrounding whitespace as well as lowercasing. -/
def taskMatchesAmendedSpec (search : String) (t : Task) : Prop :=
  ∀ q ∈ queryTokens search,
    (q.toList.head? = some '#' →
      (∃ tg ∈ t.tags, norm tg = String.mk (q.toList.drop 1)) ∨
        jsIncludes (jsLower t.text) q = true)
    ∧ (¬ q.toList.head? = some '#' →
      jsIncludes (jsLower t.text) q = true ∨ ∃ tg ∈ t.tags, norm tg = q)

instance (search : String) (t : Task) : Decidable (taskMatchesSpec search t) := by
  unfold taskMatchesSpec
  infer_instance

instance (search : String) (t : Task) : Decidable (taskMatchesAmendedSpec search t) := by
  unfold taskMatchesAmendedSpec
  infer_instance

/-! ## Deferred delete -/

/-- The `setTimeout` body of `deleteTask`, run against whatever the state is
when the timer fires: filter `taskId` out of the tasks of the list whose id is
`listId`, leaving every other list untouched.  (The `deleting` set only drives
the fade-out animation and is not part of the ordering model.) -/
def deleteTaskFire (s : AppState) (listId taskId : ID) : AppState :=
  { s with lists := s.lists.map (fun l =>
      if l.id = listId then { l with tasks := l.tasks.filter (fun t => t.id ≠ taskId) }
      else l) }

/-! ## Auxiliary definitions used by the statements and proofs -/

/-- Replace the task sequence of the list whose id is `i` with `A`; the two
drag updates are instances of this. -/
def updTasks (i : ID) (A : List Task) (l : TodoList) : TodoList :=
  if l.id = i then { l with tasks := A } else l

/-- All task ids of the workspace, in display order. -/
def allTaskIds (s : AppState) : List ID :=
  (s.lists.map (fun l => l.tasks.map (·.id))).flatten

/-- A convenience task constructor for concrete examples. -/
def mkTask (i : ID) (text : String) (tags : List String) : Task :=
  { id := i, text := text, completed := false, priority := .med, due := none,
    tags := tags, createdAt := 0 }

/-- A convenience list constructor for concrete examples. -/
def mkList (i : ID) (name : String) (tasks : List Task) : TodoList :=
  { id := i, name := name, tasks := tasks, autoResetMidnight := false,
    archived := none }

/-- A one-list workspace holding only an empty Inbox. -/
def inboxOnly : AppState :=
  { lists := [mkList 0 "Inbox" []], activeListId := 0, nextId := 1, now := 100 }

/-- A two-list workspace with one task in each list. -/
def twoListsState : AppState :=
  { lists := [mkList 0 "A" [mkTask 3 "a" []], mkList 1 "B" [mkTask 5 "x" []]],
    activeListId := 0, nextId := 10, now := 0 }

/-- A workspace with an Inbox and a Today list. -/
def inboxTodayState : AppState :=
  { lists := [mkList 0 "Inbox" [], mkList 1 "Today" []], activeListId := 0,
    nextId := 2, now := 100 }

/-! # Theorems -/

/-! ## Generic lemmas about the lookup helpers -/

theorem lookupMap_mem {m : TaskMap} {k : ID} {v : List Task}
    (h : lookupMap m k = some v) : (k, v) ∈ m := by
  induction m with
  | nil => simp [lookupMap] at h
  | cons kv rest ih =>
    obtain ⟨k', v'⟩ := kv
    by_cases hk : k' = k
    · subst hk
      simp [lookupMap] at h
      simp [h]
    · simp [lookupMap, hk] at h
      exact List.mem_cons_of_mem _ (ih h)

theorem addParsedTasks_eq (m : TaskMap) (ls : List TodoList) :
    addParsedTasks m ls =
      ls.map (fun l => { l with tasks := (lookupMap m l.id).getD [] ++ l.tasks }) := by
  unfold addParsedTasks
  apply List.map_congr_left
  intro l _
  cases h : lookupMap m l.id with
  | none => rfl
  | some inc =>
    cases inc with
    | nil => rfl
    | cons a as => simp

theorem addParsedTasks_of_all_empty {m : TaskMap} (ls : List TodoList)
    (h : ∀ kv ∈ m, kv.2 = ([] : List Task)) : addParsedTasks m ls = ls := by
  rw [addParsedTasks_eq]
  conv_rhs => rw [← List.map_id ls]
  apply List.map_congr_left
  intro l _
  cases hz : lookupMap m l.id with
  | none => rfl
  | some inc =>
    have : inc = [] := h (l.id, inc) (lookupMap_mem hz)
    subst this
    rfl

/-! ## The created-containers invariant of the parser -/

theorem getOrCreate_created_empty {snap : List TodoList} {c : Created}
    {name : String} (h : ∀ l ∈ c.created, l.tasks = []) :
    ∀ l ∈ (getOrCreateListByName snap c name).2.created, l.tasks = [] := by
  unfold getOrCreateListByName
  cases findListByName snap name with
  | some hit => exact h
  | none =>
    intro l hl
    rcases List.mem_append.1 hl with h1 | h2
    · exact h l h1
    · simp at h2
      simp [h2]

theorem makeTasks_created (texts : List String) (now : Nat) (c : Created) :
    (makeTasks texts now c).2.created = c.created := by
  induction texts generalizing c with
  | nil => rfl
  | cons t rest ih => simp [makeTasks, makeTask, ih]

theorem parseGroup_created_empty (snap : List TodoList) (act : Option ID)
    (now : Nat) (lines : List String) :
    ∀ (m : TaskMap) (cur : Option ID) (c : Created),
      (∀ l ∈ c.created, l.tasks = []) →
      ∀ l ∈ (parseGroup snap act now lines m cur c).2.created, l.tasks = [] := by
  induction lines with
  | nil => intro m cur c h; exact h
  | cons line rest ih =>
    intro m cur c h
    by_cases hh : isHeadingLine line = true
    · simp only [parseGroup, hh, if_true]
      exact ih _ _ _ (getOrCreate_created_empty h)
    · simp only [parseGroup, hh, if_false]
      cases cur with
      | some lid => exact ih _ _ _ h
      | none =>
        cases act with
        | some a => exact ih _ _ _ h
        | none => exact ih _ _ _ (getOrCreate_created_empty h)

theorem parse_created_empty (s : AppState) (raw : String) (mode : IngestMode)
    (target : IngestTarget) :
    ∀ l ∈ (parseTextToTasks s raw mode target).2.created, l.tasks = [] := by
  have base : ∀ l ∈ (Created.mk [] s.nextId).created, l.tasks = [] := by simp
  unfold parseTextToTasks
  cases target with
  | inbox =>
    simp only
    intro l hl
    rw [makeTasks_created] at hl
    exact getOrCreate_created_empty base l hl
  | today =>
    simp only
    intro l hl
    rw [makeTasks_created] at hl
    exact getOrCreate_created_empty base l hl
  | active =>
    simp only
    cases ha : activeList s with
    | some al =>
      intro l hl
      rw [makeTasks_created] at hl
      exact base l hl
    | none =>
      intro l hl
      rw [makeTasks_created] at hl
      exact getOrCreate_created_empty base l hl
  | auto =>
    cases mode with
    | single =>
      simp only
      cases ha : activeList s with
      | some al =>
        intro l hl
        rw [makeTasks_created] at hl
        exact base l hl
      | none =>
        intro l hl
        rw [makeTasks_created] at hl
        exact getOrCreate_created_empty base l hl
    | group =>
      exact parseGroup_created_empty _ _ _ _ _ _ _ base

/-! ## C1 -/

/-- C1, counterexample: parsing is not free of container effects.  On a
workspace holding only an Inbox, group-mode parsing of the single heading line
"Foo:" creates (queues the append of) a new container, so the workspace's
container sequence does not stay unchanged. -/
theorem c1_counterexample :
    (parseTextToTasks inboxOnly "Foo:" IngestMode.group IngestTarget.auto).2.created ≠ [] := by
  decide

/-- C1, amended: the parser may create containers — it, not the router,
materializes unknown container names — but every container it creates is
empty and the pre-existing containers are untouched (the post-parse container
sequence is the old sequence with the created, empty containers appended);
the router `addParsedTasks` never creates, removes or renames containers. -/
theorem c1_ingestion_container_frame :
    (∀ (s : AppState) (raw : String) (mode : IngestMode) (target : IngestTarget),
      ∀ l ∈ (parseTextToTasks s raw mode target).2.created, l.tasks = [])
    ∧ (∀ (m : TaskMap) (ls : List TodoList),
        (addParsedTasks m ls).map (fun l => (l.id, l.name)) =
          ls.map (fun l => (l.id, l.name))) := by
  constructor
  · exact parse_created_empty
  · intro m ls
    rw [addParsedTasks_eq, List.map_map]
    rfl

/-! ## C3 -/

/-- C3, counterexample: on whitespace-only input the parser does not return a
mapping "with no container keys at all".  With a single-mode/auto-target
ingestion into the Inbox-only workspace, the blank input "   \n  " produces
the mapping `[(0, [])]`: the active container's key is present (with an empty
bucket). -/
theorem c3_counterexample :
    parseLines "   \n  " = [] ∧
      (parseTextToTasks inboxOnly "   \n  " IngestMode.single IngestTarget.auto).1 ≠ [] := by
  decide

/-- C3, amended: on input that is empty or whitespace-only (no lines survive
preprocessing), every bucket of the returned mapping is empty — in the forced
and single routes the mapping holds a single key with an empty bucket, in
group mode it has no keys — and applying the mapping changes no container:
`addParsedTasks` returns the workspace's container list unchanged. -/
theorem c3_blank_input (s : AppState) (mode : IngestMode) (target : IngestTarget)
    (raw : String) (h : parseLines raw = []) :
    (∀ kv ∈ (parseTextToTasks s raw mode target).1, kv.2 = ([] : List Task))
    ∧ ∀ ls : List TodoList, addParsedTasks (parseTextToTasks s raw mode target).1 ls = ls := by
  have key : ∀ kv ∈ (parseTextToTasks s raw mode target).1, kv.2 = ([] : List Task) := by
    unfold parseTextToTasks
    rw [h]
    cases target with
    | inbox => simp [makeTasks]
    | today => simp [makeTasks]
    | active =>
      cases ha : activeList s with
      | some al => simp [makeTasks]
      | none => simp [makeTasks]
    | auto =>
      cases mode with
      | single =>
        cases ha : activeList s with
        | some al => simp [makeTasks]
        | none => simp [makeTasks]
      | group => simp [parseGroup]
  exact ⟨key, fun ls => addParsedTasks_of_all_empty ls key⟩

/-- C3, witness for the amended theorem at a concrete blank input. -/
theorem c3_blank_input_witness :
    (∀ kv ∈ (parseTextToTasks inboxOnly "  \n " IngestMode.single IngestTarget.today).1,
      kv.2 = ([] : List Task))
    ∧ addParsedTasks
        (parseTextToTasks inboxOnly "  \n " IngestMode.single IngestTarget.today).1
        inboxOnly.lists = inboxOnly.lists :=
  ⟨(c3_blank_input inboxOnly IngestMode.single IngestTarget.today "  \n " (by decide)).1,
   (c3_blank_input inboxOnly IngestMode.single IngestTarget.today "  \n " (by decide)).2
     inboxOnly.lists⟩

/-! ## C7 -/

/-- C7: group-mode parsing of
"Groceries:\n- milk\n- eggs\nErrands:\n1. bank\nwash car" produces exactly
two buckets — the (freshly created) container named Groceries with items
"milk", "eggs" and the container named Errands with "bank", "wash car", in
order — with bullet/number markers stripped, no items for the heading lines,
and the trailing non-bulleted line attached to the last opened bucket. -/
theorem c7_group_mode_example :
    ((parseTextToTasks inboxOnly "Groceries:\n- milk\n- eggs\nErrands:\n1. bank\nwash car"
        IngestMode.group IngestTarget.auto).1.map (fun kv => (kv.1, kv.2.map (·.text)))
      = [(1, ["milk", "eggs"]), (4, ["bank", "wash car"])])
    ∧ ((parseTextToTasks inboxOnly "Groceries:\n- milk\n- eggs\nErrands:\n1. bank\nwash car"
        IngestMode.group IngestTarget.auto).2.created.map (fun l => (l.id, l.name))
      = [(1, "Groceries"), (4, "Errands")]) := by
  decide

/-! ## C8 -/

/-- C8: applying a parsed mapping prepends each container's bucket, in parser
order, in front of the container's existing items — a container holding `[c]`
receiving `[a, b]` ends up holding `[a, b, c]` — and a container whose id is
not keyed in the mapping is left unchanged in place. -/
theorem c8_router_prepend :
    (∀ (m : TaskMap) (ls : List TodoList),
      addParsedTasks m ls =
        ls.map (fun l => { l with tasks := (lookupMap m l.id).getD [] ++ l.tasks }))
    ∧ (∀ (m : TaskMap) (ls : List TodoList) (k : Nat) (l : TodoList),
        ls[k]? = some l → lookupMap m l.id = none →
          (addParsedTasks m ls)[k]? = some l)
    ∧ ∀ (a b c : Task) (i : ID) (name : String),
        addParsedTasks [(i, [a, b])] [mkList i name [c]] = [mkList i name [a, b, c]] := by
  refine ⟨addParsedTasks_eq, ?_, ?_⟩
  · intro m ls k l hk hnone
    rw [addParsedTasks_eq]
    simp [List.getElem?_map, hk, hnone]
  · intro a b c i name
    simp [addParsedTasks, lookupMap, mkList]

/-- C8, witness: a container whose id is not keyed in the mapping is returned
unchanged at its position. -/
theorem c8_router_prepend_witness :
    (addParsedTasks [(9, [])] [mkList 0 "A" []])[0]? = some (mkList 0 "A" []) :=
  c8_router_prepend.2.1 [(9, [])] [mkList 0 "A" []] 0 (mkList 0 "A" [])
    (by decide) (by decide)

/-! ## C10 -/

/-- C10: when the deferred removal scheduled by `deleteTask` fires, it only
touches the container whose id was captured at scheduling time: any container
at a position `k` whose id differs is exactly unchanged, and in particular a
task that has meanwhile been moved into such a container survives there. -/
theorem c10_deferred_delete_frame (s : AppState) (lid tid : ID) (k : Nat)
    (l : TodoList) (hk : s.lists[k]? = some l) (hne : l.id ≠ lid) :
    (deleteTaskFire s lid tid).lists[k]? = some l
    ∧ ∀ tk ∈ l.tasks, ∃ l', (deleteTaskFire s lid tid).lists[k]? = some l'
        ∧ tk ∈ l'.tasks := by
  have hmain : (deleteTaskFire s lid tid).lists[k]? = some l := by
    unfold deleteTaskFire
    simp [List.getElem?_map, hk, hne]
  exact ⟨hmain, fun tk htk => ⟨l, hmain, htk⟩⟩

/-- C10, witness: deleting task 5 from container 0 leaves container 1 (which
holds task 5) unchanged, so the task survives there. -/
theorem c10_deferred_delete_frame_witness :
    (deleteTaskFire twoListsState 0 5).lists[1]? = some (mkList 1 "B" [mkTask 5 "x" []]) :=
  (c10_deferred_delete_frame twoListsState 0 5 1 (mkList 1 "B" [mkTask 5 "x" []])
    (by decide) (by decide)).1

/-! ## C2 -/

theorem parseP0_today_created_names (s : AppState) (text : String)
    (mode : IngestMode) (htid : findTodayId s.lists = none) :
    ∀ l ∈ (parseTextToTasksP0 s text mode IngestTarget.today).2.created,
      l.name = "Inbox" := by
  unfold parseTextToTasksP0
  simp only [htid]
  cases ha : activeList s with
  | some al =>
    intro l hl
    rw [makeTasks_created] at hl
    simp at hl
  | none =>
    intro l hl
    rw [makeTasks_created] at hl
    unfold ensureInboxId getOrCreateListByName at hl
    cases hi : findListByName s.lists "Inbox" with
    | some hit => rw [hi] at hl; simp at hl
    | none => rw [hi] at hl; simp at hl; simp [hl]

/-- C2, counterexample: in the App.tsx variant, ingesting "milk" with
target = today into a workspace that has no container named Today both
fabricates a Today container and switches the active reference to it,
contradicting the claim that the active reference is left unchanged and no
Today is fabricated. -/
theorem c2_counterexample :
    findListByName inboxOnly.lists "Today" = none
    ∧ (handlePaste inboxOnly "milk" IngestMode.single IngestTarget.today).activeListId
        ≠ inboxOnly.activeListId
    ∧ ∃ l ∈ (handlePaste inboxOnly "milk" IngestMode.single IngestTarget.today).lists,
        l.name = "Today" := by
  decide

/-- C2, amended: the claimed behavior holds for the part_000 variant
(`handlePasteP0`): a today-targeted ingestion switches the active reference
to the pre-existing Today container when one exists and otherwise leaves the
active reference unchanged and fabricates no Today container.  In the App.tsx
variant (`handlePaste`), by contrast, a today-targeted ingestion always
switches: to the pre-existing Today when one exists, and otherwise to a
freshly created container named Today. -/
theorem c2_today_switch (s : AppState) (text : String) (mode : IngestMode)
    (h : text ≠ "") :
    (∀ tl, findListByName s.lists "Today" = some tl →
      (handlePasteP0 s text mode IngestTarget.today).activeListId = tl.id)
    ∧ (findListByName s.lists "Today" = none →
        (handlePasteP0 s text mode IngestTarget.today).activeListId = s.activeListId
        ∧ ∀ l ∈ (handlePasteP0 s text mode IngestTarget.today).lists,
            jsLower (jsTrim l.name) ≠ "today")
    ∧ (∀ tl, findListByName s.lists "Today" = some tl →
        (handlePaste s text mode IngestTarget.today).activeListId = tl.id)
    ∧ (findListByName s.lists "Today" = none →
        ∃ l ∈ (handlePaste s text mode IngestTarget.today).lists,
          l.name = "Today"
          ∧ (handlePaste s text mode IngestTarget.today).activeListId = l.id) := by
  have hkey : jsLower (jsTrim "Today") = "today" := by decide
  refine ⟨?_, ?_, ?_, ?_⟩
  · intro tl htl
    have htid : findTodayId s.lists = some tl.id := by
      simp [findTodayId, htl]
    cases hp : parseTextToTasksP0 s text mode IngestTarget.today with
    | mk m c1 => simp [handlePasteP0, if_neg h, hp, htid]
  · intro hnone
    have htid : findTodayId s.lists = none := by
      simp [findTodayId, hnone]
    have hnames : ∀ l ∈ (parseTextToTasksP0 s text mode IngestTarget.today).2.created,
        l.name = "Inbox" := parseP0_today_created_names s text mode htid
    cases hp : parseTextToTasksP0 s text mode IngestTarget.today with
    | mk m c1 =>
      rw [hp] at hnames
      constructor
      · simp [handlePasteP0, if_neg h, hp, htid]
      · intro l hl
        simp only [handlePasteP0, if_neg h, hp, htid] at hl
        rw [addParsedTasks_eq] at hl
        simp only [List.mem_map] at hl
        obtain ⟨l0, hl0, rfl⟩ := hl
        rcases List.mem_append.1 hl0 with hs | hc
        · have := List.find?_eq_none.1 hnone l0 hs
          rw [hkey] at this
          simpa using this
        · have hn : l0.name = "Inbox" := hnames l0 hc
          simp [hn]
          decide
  · intro tl htl
    cases hp : parseTextToTasks s text mode IngestTarget.today with
    | mk m c1 =>
      have het : ensureTodayId s.lists { created := [], nextId := c1.nextId }
          = (tl.id, { created := [], nextId := c1.nextId }) := by
        unfold ensureTodayId getOrCreateListByName
        rw [htl]
      simp [handlePaste, if_neg h, hp, het]
  · intro hnone
    cases hp : parseTextToTasks s text mode IngestTarget.today with
    | mk m c1 =>
      have het : ensureTodayId s.lists { created := [], nextId := c1.nextId }
          = (c1.nextId,
             { created := [{ id := c1.nextId, name := "Today", tasks := [],
                             autoResetMidnight := false, archived := none }],
               nextId := c1.nextId + 1 }) := by
        unfold ensureTodayId getOrCreateListByName
        rw [hnone]
        rfl
      refine ⟨{ id := c1.nextId, name := "Today", tasks := [],
                autoResetMidnight := false, archived := none }, ?_, rfl, ?_⟩
      · simp [handlePaste, if_neg h, hp, het]
      · simp [handlePaste, if_neg h, hp, het]

/-- C2, witness: with a pre-existing Today (id 1) the part_000 ingestion
switches the active reference to it. -/
theorem c2_today_switch_witness :
    (handlePasteP0 inboxTodayState "x" IngestMode.single IngestTarget.today).activeListId
      = (mkList 1 "Today" []).id :=
  (c2_today_switch inboxTodayState "x" IngestMode.single (by decide)).1
    (mkList 1 "Today" []) (by decide)

/-! ## C5 -/

theorem findById_mem {ls : List TodoList} {i : ID} {l : TodoList}
    (h : findById ls i = some l) : l ∈ ls ∧ l.id = i := by
  induction ls with
  | nil => simp [findById] at h
  | cons x rest ih =>
    by_cases hx : x.id = i
    · simp [findById, hx] at h
      subst h
      exact ⟨List.mem_cons_self _ _, hx⟩
    · simp [findById, hx] at h
      exact ⟨List.mem_cons_of_mem _ (ih h).1, (ih h).2⟩

theorem findById_eq_none_iff {ls : List TodoList} {i : ID} :
    findById ls i = none ↔ ∀ l ∈ ls, l.id ≠ i := by
  induction ls with
  | nil => simp [findById]
  | cons x rest ih =>
    by_cases hx : x.id = i
    · simp [findById, hx]
    · simp [findById, hx, ih]

/-- C5: after removing a container, provided at least one container remains,
the (effect-repaired) active reference resolves to an existing container; and
when the removed container was the active one, the reference ends up on the
first remaining container. -/
theorem c5_active_resolves (s : AppState) (i : ID)
    (h : (removeList s i).lists ≠ []) :
    (∃ l ∈ (ensureActive (removeList s i)).lists,
        l.id = (ensureActive (removeList s i)).activeListId)
    ∧ (s.activeListId = i →
        ∃ l0, (ensureActive (removeList s i)).lists.head? = some l0
          ∧ (ensureActive (removeList s i)).activeListId = l0.id) := by
  by_cases ha : s.activeListId = i
  · -- the active container is the removed one
    cases hl : s.lists with
    | nil =>
      exfalso
      apply h
      simp [removeList, hl]
    | cons l0 rest =>
      by_cases hl0 : l0.id = i
      · -- the removed container was also the snapshot head: `removeList`
        -- leaves a dangling reference which the effect repairs to the new head
        have hrm : removeList s i =
            { s with lists := rest.filter (fun l => l.id ≠ i), activeListId := l0.id } := by
          simp [removeList, hl, ha, List.filter_cons, hl0]
        cases hF : rest.filter (fun l => l.id ≠ i) with
        | nil =>
          exfalso
          apply h
          rw [hrm]
          exact hF
        | cons m rest' =>
          have hnone : findById (m :: rest') l0.id = none := by
            rw [findById_eq_none_iff]
            intro l hlmem
            have hl' : l ∈ rest.filter (fun x => x.id ≠ i) := by
              rw [hF]
              exact hlmem
            have := (List.mem_filter.1 hl').2
            simp at this
            rw [hl0]
            exact this
          have hea : ensureActive (removeList s i) =
              { s with lists := m :: rest', activeListId := m.id } := by
            rw [hrm]
            unfold ensureActive
            simp only [hF, hnone, List.head?_cons]
          refine ⟨⟨m, ?_, ?_⟩, fun _ => ⟨m, ?_, ?_⟩⟩ <;> simp [hea]
      · -- the snapshot head survives the removal and becomes the fallback
        have hrm : removeList s i =
            { s with lists := l0 :: rest.filter (fun l => l.id ≠ i), activeListId := l0.id } := by
          simp [removeList, hl, ha, List.filter_cons, hl0]
        have hsome : findById (l0 :: rest.filter (fun l => l.id ≠ i)) l0.id = some l0 := by
          simp [findById]
        have hea : ensureActive (removeList s i) = removeList s i := by
          rw [hrm]
          unfold ensureActive
          simp only [hsome]
        refine ⟨⟨l0, ?_, ?_⟩, fun _ => ⟨l0, ?_, ?_⟩⟩
        · rw [hea, hrm]
          exact List.mem_cons_self _ _
        · rw [hea, hrm]
        · rw [hea, hrm]
          rfl
        · rw [hea, hrm]
  · -- a non-active container is removed: the reference value is unchanged
    have hrm : removeList s i =
        { s with lists := s.lists.filter (fun l => l.id ≠ i) } := by
      simp [removeList, ha]
    cases hfb : findById (s.lists.filter (fun l => l.id ≠ i)) s.activeListId with
    | some l =>
      have hea : ensureActive (removeList s i) = removeList s i := by
        rw [hrm]
        unfold ensureActive
        simp only [hfb]
      refine ⟨⟨l, ?_, ?_⟩, fun hc => absurd hc ha⟩
      · rw [hea, hrm]
        exact (findById_mem hfb).1
      · rw [hea, hrm]
        exact (findById_mem hfb).2
    | none =>
      cases hF : s.lists.filter (fun l => l.id ≠ i) with
      | nil =>
        exfalso
        apply h
        rw [hrm]
        exact hF
      | cons m rest' =>
        have hfb' : findById (m :: rest') s.activeListId = none := hF ▸ hfb
        have hea : ensureActive (removeList s i) =
            { s with lists := m :: rest', activeListId := m.id } := by
          rw [hrm]
          unfold ensureActive
          simp only [hF, hfb', List.head?_cons]
        refine ⟨⟨m, ?_, ?_⟩, fun hc => absurd hc ha⟩ <;> simp [hea]

/-- C5, witness: removing the active first container of a two-container
workspace leaves the reference resolving to the remaining container. -/
theorem c5_active_resolves_witness :
    ∃ l ∈ (ensureActive (removeList twoListsState 0)).lists,
      l.id = (ensureActive (removeList twoListsState 0)).activeListId :=
  (c5_active_resolves twoListsState 0 (by decide)).1

/-! ## C4 -/

theorem head?_dropWhile_not (p : Char → Bool) (l : List Char) :
    ∀ c, ((l.dropWhile p).head? = some c) → p c = false := by
  induction l with
  | nil => simp
  | cons a rest ih =>
    intro c hc
    by_cases hpa : p a = true
    · rw [List.dropWhile_cons_of_pos hpa] at hc
      exact ih c hc
    · rw [List.dropWhile_cons_of_neg hpa] at hc
      simp at hc
      subst hc
      exact Bool.eq_false_iff.2 hpa

theorem getLast?_of_suffix {r m : List Char} (h : r <:+ m) (hne : r ≠ []) :
    r.getLast? = m.getLast? := by
  obtain ⟨t, rfl⟩ := h
  exact (List.getLast?_append_of_ne_nil t hne).symm

/-- The characters produced by `jsTrim` start and end (when nonempty) with a
non-whitespace character. -/
theorem jsTrim_boundary (s : String) :
    (∀ c, (jsTrim s).toList.head? = some c → c.isWhitespace = false)
    ∧ (∀ c, (jsTrim s).toList.getLast? = some c → c.isWhitespace = false) := by
  have htl : (jsTrim s).toList =
      ((s.toList.dropWhile Char.isWhitespace).reverse.dropWhile Char.isWhitespace).reverse := rfl
  constructor
  · intro c hc
    rw [htl, List.head?_reverse] at hc
    have hsuf : (s.toList.dropWhile Char.isWhitespace).reverse.dropWhile Char.isWhitespace
        <:+ (s.toList.dropWhile Char.isWhitespace).reverse :=
      List.dropWhile_suffix _
    have hne : (s.toList.dropWhile Char.isWhitespace).reverse.dropWhile Char.isWhitespace ≠ [] := by
      intro hz
      rw [hz] at hc
      simp at hc
    rw [getLast?_of_suffix hsuf hne, List.getLast?_reverse] at hc
    exact head?_dropWhile_not _ _ c hc
  · intro c hc
    rw [htl, List.getLast?_reverse] at hc
    exact head?_dropWhile_not _ _ c hc

theorem prefix_head {q l : List Char} {a : Char} (h : q <+: a :: l) (hne : q ≠ []) :
    q.head? = some a := by
  obtain ⟨t, ht⟩ := h
  cases q with
  | nil => exact absurd rfl hne
  | cons b q' =>
    simp at ht
    simp [ht.1]

theorem infix_dropWhile_iff (p : Char → Bool) (q : List Char) (hq : q ≠ [])
    (hh : ∀ c, q.head? = some c → p c = false) (l : List Char) :
    q <:+: l.dropWhile p ↔ q <:+: l := by
  constructor
  · intro h
    exact h.trans (List.dropWhile_suffix p).isInfix
  · intro h
    induction l with
    | nil => simpa using h
    | cons a rest ih =>
      by_cases hpa : p a = true
      · rw [List.dropWhile_cons_of_pos hpa]
        rcases List.infix_cons_iff.1 h with hpre | hinf
        · have := prefix_head hpre hq
          rw [hh a this] at hpa
          exact absurd hpa (by simp)
        · exact ih hinf
      · rwa [List.dropWhile_cons_of_neg hpa]

/-- Substring search in the trimmed text agrees with substring search in the
untrimmed text, for a needle that is nonempty and has non-whitespace first
and last characters — in particular for every normalized query token. -/
theorem jsIncludes_norm_eq (text q : String) (hq : q.toList ≠ [])
    (hh : ∀ c, q.toList.head? = some c → c.isWhitespace = false)
    (hl : ∀ c, q.toList.getLast? = some c → c.isWhitespace = false) :
    jsIncludes (norm text) q = jsIncludes (jsLower text) q := by
  unfold jsIncludes norm
  rw [decide_eq_decide]
  have htl : (jsTrim (jsLower text)).toList =
      (((jsLower text).toList.dropWhile Char.isWhitespace).reverse.dropWhile
        Char.isWhitespace).reverse := rfl
  rw [htl]
  have hqrev : q.toList.reverse ≠ [] := by simpa using hq
  have hhrev : ∀ c, q.toList.reverse.head? = some c → c.isWhitespace = false := by
    intro c hc
    rw [List.head?_reverse] at hc
    exact hl c hc
  calc q.toList <:+:
        (((jsLower text).toList.dropWhile Char.isWhitespace).reverse.dropWhile
          Char.isWhitespace).reverse
      ↔ q.toList.reverse <:+:
          ((jsLower text).toList.dropWhile Char.isWhitespace).reverse.dropWhile
            Char.isWhitespace := by
        rw [← List.reverse_infix]
        simp
    _ ↔ q.toList.reverse <:+: ((jsLower text).toList.dropWhile Char.isWhitespace).reverse :=
        infix_dropWhile_iff _ _ hqrev hhrev _
    _ ↔ q.toList <:+: (jsLower text).toList.dropWhile Char.isWhitespace :=
        List.reverse_infix
    _ ↔ q.toList <:+: (jsLower text).toList :=
        infix_dropWhile_iff _ _ hq hh _

theorem queryTokens_facts (search : String) :
    ∀ q ∈ queryTokens search,
      q.toList ≠ []
      ∧ (∀ c, q.toList.head? = some c → c.isWhitespace = false)
      ∧ (∀ c, q.toList.getLast? = some c → c.isWhitespace = false) := by
  intro q hq
  unfold queryTokens at hq
  obtain ⟨hmem, hne⟩ := List.mem_filter.1 hq
  obtain ⟨cs, _, rfl⟩ := List.mem_map.1 hmem
  have hne' : (norm (String.mk cs)).toList ≠ [] := by
    intro hz
    apply (by simpa using hne : norm (String.mk cs) ≠ "")
    cases hmk : norm (String.mk cs) with
    | mk data =>
      rw [hmk] at hz
      simp only [String.toList] at hz
      simp [hz, hmk.symm]
  refine ⟨hne', ?_, ?_⟩
  · exact (jsTrim_boundary (jsLower (String.mk cs))).1
  · exact (jsTrim_boundary (jsLower (String.mk cs))).2

/-- C4, counterexample: the claimed "iff" for `#`-prefixed tokens fails —
the token `#foo` matches a task whose text contains the literal substring
"#foo" even though no tag equals "foo"; and the claimed exact
(case-insensitive) tag equality also fails to account for the trimming the
code applies — the token `foo` matches a task whose only tag is " Foo ". -/
theorem c4_counterexample :
    (taskMatches "#foo" (mkTask 1 "call #foo now" []) = true
      ∧ ¬ taskMatchesSpec "#foo" (mkTask 1 "call #foo now" []))
    ∧ (taskMatches "foo" (mkTask 2 "xyz" [" Foo "]) = true
      ∧ ¬ taskMatchesSpec "foo" (mkTask 2 "xyz" [" Foo "])) := by
  decide

/-- C4, amended: `taskMatches` agrees with the per-token semantics amended in
two points: a `#`-prefixed token matches iff the stripped token equals a
lowercased-and-trimmed tag or the full token (including `#`) is a
case-insensitive substring of the text, and tag comparisons for plain tokens
also trim the tag. -/
theorem c4_search_semantics (search : String) (t : Task) :
    taskMatches search t = true ↔ taskMatchesAmendedSpec search t := by
  unfold taskMatches taskMatchesTokens taskMatchesAmendedSpec
  by_cases he : queryTokens search = []
  · simp [he]
  · rw [if_neg he, List.all_eq_true]
    apply forall_congr'
    intro q
    apply imp_congr_right
    intro hq
    obtain ⟨hne, hh, hl⟩ := queryTokens_facts search q hq
    rw [jsIncludes_norm_eq t.text q hne hh hl]
    by_cases hhash : q.toList.head? = some '#'
    · have hqtag : (if q.toList.head? = some '#' then String.mk (q.toList.drop 1) else q)
          = String.mk (q.toList.drop 1) := if_pos hhash
      rw [hqtag]
      simp only [hhash, not_true_eq_false, false_implies, and_true,
        forall_const, Bool.or_eq_true, List.contains_iff_exists_mem_beq,
        List.mem_map, beq_iff_eq]
      constructor
      · rintro (hincl | ⟨a, ⟨tg, htg, h2⟩, h3⟩)
        · exact Or.inr hincl
        · exact Or.inl ⟨tg, htg, by rw [h2, ← h3]⟩
      · rintro (⟨tg, htg, h2⟩ | hincl)
        · exact Or.inr ⟨norm tg, ⟨tg, htg, rfl⟩, h2.symm⟩
        · exact Or.inl hincl
    · have hqtag : (if q.toList.head? = some '#' then String.mk (q.toList.drop 1) else q)
          = q := if_neg hhash
      rw [hqtag]
      simp only [hhash, not_false_eq_true, false_implies,
        forall_const, true_and, Bool.or_eq_true, List.contains_iff_exists_mem_beq,
        List.mem_map, beq_iff_eq]
      constructor
      · rintro (hincl | ⟨a, ⟨tg, htg, h2⟩, h3⟩)
        · exact Or.inl hincl
        · exact Or.inr ⟨tg, htg, by rw [h2, ← h3]⟩
      · rintro (hincl | ⟨tg, htg, h2⟩)
        · exact Or.inl hincl
        · exact Or.inr ⟨norm tg, ⟨tg, htg, rfl⟩, h2.symm⟩

/-! ## C6 and C9: drag-handler lemmas -/

theorem findListIdByTask_some {ls : List TodoList} {tid f : ID}
    (h : findListIdByTask ls tid = some f) :
    ∃ l ∈ ls, l.id = f ∧ ∃ tk ∈ l.tasks, tk.id = tid := by
  induction ls with
  | nil => simp [findListIdByTask] at h
  | cons x rest ih =>
    by_cases hx : ∃ t ∈ x.tasks, t.id = tid
    · simp only [findListIdByTask, if_pos hx, Option.some.injEq] at h
      exact ⟨x, List.mem_cons_self _ _, h, hx⟩
    · simp only [findListIdByTask, if_neg hx] at h
      obtain ⟨l, hl, hlf, htk⟩ := ih h
      exact ⟨l, List.mem_cons_of_mem _ hl, hlf, htk⟩

theorem findById_of_mem_nodup {ls : List TodoList} {l : TodoList}
    (hnd : (ls.map (·.id)).Nodup) (hmem : l ∈ ls) : findById ls l.id = some l := by
  induction ls with
  | nil => simp at hmem
  | cons x rest ih =>
    obtain ⟨hx_nin, hnd'⟩ : (∀ y ∈ rest, ¬ y.id = x.id) ∧ (rest.map (·.id)).Nodup := by
      simpa using hnd
    rcases List.mem_cons.1 hmem with rfl | hmem'
    · simp [findById]
    · have hx : x.id ≠ l.id := by
        intro hxe
        exact hx_nin l hmem' hxe.symm
      simp only [findById, if_neg hx]
      exact ih hnd' hmem'

theorem findTaskById_isSome {tasks : List Task} {tid : ID}
    (h : ∃ tk ∈ tasks, tk.id = tid) :
    ∃ tk', findTaskById tasks tid = some tk' ∧ tk' ∈ tasks ∧ tk'.id = tid := by
  induction tasks with
  | nil => simp at h
  | cons x rest ih =>
    by_cases hx : x.id = tid
    · exact ⟨x, by simp [findTaskById, hx], List.mem_cons_self _ _, hx⟩
    · obtain ⟨tk, htk, hid⟩ := h
      have htk_rest : tk ∈ rest := by
        rcases List.mem_cons.1 htk with rfl | hr
        · exact absurd hid hx
        · exact hr
      obtain ⟨tk', h1, h2, h3⟩ := ih ⟨tk, htk_rest, hid⟩
      refine ⟨tk', ?_, List.mem_cons_of_mem _ h2, h3⟩
      simp only [findTaskById, if_neg hx]
      exact h1

theorem resolveTo_mem {ls : List TodoList} {o t : ID}
    (h : resolveToListId ls o = some t) : ∃ l ∈ ls, l.id = t := by
  unfold resolveToListId at h
  by_cases hmem : o ∈ ls.map (·.id)
  · rw [if_pos hmem] at h
    obtain ⟨l, hl, hid⟩ := List.mem_map.1 hmem
    exact ⟨l, hl, by rw [hid]; exact Option.some.inj h⟩
  · rw [if_neg hmem] at h
    obtain ⟨l, hl, hid, _⟩ := findListIdByTask_some h
    exact ⟨l, hl, hid⟩

theorem updTasks_id (i : ID) (A : List Task) (l : TodoList) :
    (updTasks i A l).id = l.id := by
  unfold updTasks
  split <;> rfl

theorem map_id_updTasks (i : ID) (A : List Task) (ls : List TodoList) :
    (ls.map (updTasks i A)).map (·.id) = ls.map (·.id) := by
  rw [List.map_map]
  apply List.map_congr_left
  intro l _
  exact updTasks_id i A l

theorem findById_map_updTasks (i : ID) (A : List Task) (ls : List TodoList) (j : ID) :
    findById (ls.map (updTasks i A)) j = (findById ls j).map (updTasks i A) := by
  induction ls with
  | nil => rfl
  | cons x rest ih =>
    by_cases hx : x.id = j
    · simp only [List.map_cons, findById, updTasks_id, if_pos hx]
      rfl
    · simp only [List.map_cons, findById, updTasks_id, if_neg hx]
      exact ih

theorem map_updTasks_of_not_mem {ls : List TodoList} {i : ID} (A : List Task)
    (h : ∀ l ∈ ls, l.id ≠ i) : ls.map (updTasks i A) = ls := by
  conv_rhs => rw [← List.map_id ls]
  apply List.map_congr_left
  intro l hl
  unfold updTasks
  rw [if_neg (h l hl)]
  rfl

theorem sum_map_updTasks {ls : List TodoList} {i : ID} {L : TodoList} (A : List Task)
    (hnd : (ls.map (·.id)).Nodup) (hL : findById ls i = some L) :
    ((ls.map (updTasks i A)).map (fun l => l.tasks.length)).sum + L.tasks.length
      = (ls.map (fun l => l.tasks.length)).sum + A.length := by
  induction ls with
  | nil => simp [findById] at hL
  | cons x rest ih =>
    obtain ⟨hx_nin, hnd'⟩ : (∀ y ∈ rest, ¬ y.id = x.id) ∧ (rest.map (·.id)).Nodup := by
      simpa using hnd
    by_cases hx : x.id = i
    · have hxL : x = L := by
        simp only [findById, if_pos hx, Option.some.injEq] at hL
        exact hL
      subst hxL
      have hrest : ∀ l ∈ rest, l.id ≠ i := by
        intro l hl hli
        exact hx_nin l hl (by rw [hli, hx])
      rw [List.map_cons, map_updTasks_of_not_mem A hrest]
      simp only [List.map_cons, List.sum_cons, updTasks, if_pos hx]
      omega
    · simp only [findById, if_neg hx] at hL
      have hupd : updTasks i A x = x := by
        unfold updTasks
        rw [if_neg hx]
      have := ih hnd' hL
      simp only [List.map_cons, List.sum_cons, hupd]
      omega

theorem two_update_sum {ls : List TodoList} {f t : ID} {fromL toL : TodoList}
    (A B : List Task) (hnd : (ls.map (·.id)).Nodup) (hft : f ≠ t)
    (hf : findById ls f = some fromL) (ht : findById ls t = some toL) :
    ((ls.map (fun l =>
        if l.id = f then { l with tasks := A }
        else if l.id = t then { l with tasks := B }
        else l)).map (fun l => l.tasks.length)).sum
      + fromL.tasks.length + toL.tasks.length
    = (ls.map (fun l => l.tasks.length)).sum + A.length + B.length := by
  have hcomp : (fun l =>
      if l.id = f then { l with tasks := A }
      else if l.id = t then { l with tasks := B }
      else l) = fun l => updTasks f A (updTasks t B l) := by
    funext l
    by_cases h1 : l.id = f
    · have h2 : l.id ≠ t := h1 ▸ hft
      simp [updTasks, h1, h2, hft]
    · by_cases h2 : l.id = t
      · simp [updTasks, h1, h2, hft]
      · simp [updTasks, h1, h2, hft]
  rw [hcomp]
  have hmm : ls.map (fun l => updTasks f A (updTasks t B l))
      = (ls.map (updTasks t B)).map (updTasks f A) := by
    rw [List.map_map]
    rfl
  rw [hmm]
  have hnd2 : ((ls.map (updTasks t B)).map (·.id)).Nodup := by
    rw [map_id_updTasks]
    exact hnd
  have hfromL_id : fromL.id = f := (findById_mem hf).2
  have hfromL_fix : updTasks t B fromL = fromL := by
    unfold updTasks
    rw [if_neg (hfromL_id ▸ hft)]
  have hf2 : findById (ls.map (updTasks t B)) f = some fromL := by
    rw [findById_map_updTasks, hf, Option.map_some', hfromL_fix]
  have e1 := sum_map_updTasks A hnd2 hf2
  have e2 := sum_map_updTasks B hnd ht
  omega

theorem filter_ne_length {tasks : List Task} {a : ID} {tk : Task}
    (hnd : (tasks.map (·.id)).Nodup) (hmem : tk ∈ tasks) (hid : tk.id = a) :
    (tasks.filter (fun x => x.id ≠ a)).length + 1 = tasks.length := by
  induction tasks with
  | nil => simp at hmem
  | cons x rest ih =>
    obtain ⟨hx_nin, hnd'⟩ : (∀ y ∈ rest, ¬ y.id = x.id) ∧ (rest.map (·.id)).Nodup := by
      simpa using hnd
    by_cases hx : x.id = a
    · have hrest_all : ∀ y ∈ rest, y.id ≠ a := by
        intro y hy hya
        exact hx_nin y hy (by rw [hya, hx])
      rw [List.filter_cons_of_neg (by simp [hx]),
        List.filter_eq_self.2 (fun y hy => by simp [hrest_all y hy])]
      simp
    · have htk_rest : tk ∈ rest := by
        rcases List.mem_cons.1 hmem with rfl | hr
        · exact absurd hid hx
        · exact hr
      rw [List.filter_cons_of_pos (by simp [hx])]
      have := ih hnd' htk_rest
      simp only [List.length_cons]
      omega

theorem spliceInsert_length {α : Type} (l : List α) (i : Nat) (x : α) :
    (spliceInsert l i x).length = l.length + 1 := by
  simp [spliceInsert]
  omega

theorem arrayMove_length {α : Type} (l : List α) (i j : Int) :
    (arrayMove l i j).length = l.length := by
  unfold arrayMove
  suffices h : ∀ (r : Nat), (match l[r]? with
      | none => l
      | some x =>
        let l' := l.take r ++ l.drop (r + 1)
        let ins := if j < 0 then (((l'.length : Int)) + j).toNat
                   else min j.toNat l'.length
        l'.take ins ++ [x] ++ l'.drop ins).length = l.length by
    exact h _
  intro r
  cases hget : l[r]? with
  | none => rfl
  | some x =>
    have hr : r < l.length := (List.getElem?_eq_some_iff.1 hget).1
    simp [List.length_append, List.length_take, List.length_drop]
    omega

theorem jsInsertIndex_eq (c : Prop) [Decidable c] (tasks : List Task) (o : ID) :
    (if (if c then ((tasks.length : Int)) else jsFindIndex tasks o) < 0
     then tasks.length
     else (if c then ((tasks.length : Int)) else jsFindIndex tasks o).toNat)
    = if c then tasks.length else (idxOfById tasks o).getD tasks.length := by
  by_cases hc : c
  · simp [hc]
  · simp only [if_neg hc]
    unfold jsFindIndex
    cases h : idxOfById tasks o with
    | none => simp
    | some n => simp

/-- The success branch of `handleDragOver`, characterized: the dragged task is
removed from the resolved source list and spliced into the resolved
destination at the end (container hover, or item not found) or at the hovered
item's index. -/
theorem dragOver_success_eq (s : AppState) (a o f t : ID)
    (lf lt : TodoList) (tk' : Task)
    (hfrom : findListIdByTask s.lists a = some f)
    (hto : resolveToListId s.lists o = some t)
    (hft : f ≠ t)
    (hfL : findById s.lists f = some lf)
    (htL : findById s.lists t = some lt)
    (htk : findTaskById lf.tasks a = some tk') :
    handleDragOver s a o = { s with lists := s.lists.map (fun l =>
      if l.id = f then { l with tasks := lf.tasks.filter (fun x => x.id ≠ a) }
      else if l.id = t then { l with tasks := (spliceInsert lt.tasks
          (if o ∈ s.lists.map (·.id) then lt.tasks.length
           else (idxOfById lt.tasks o).getD lt.tasks.length) tk') }
      else l) } := by
  unfold handleDragOver
  rw [hfrom, hto]
  simp only [if_neg hft, hfL, htL, htk]
  rw [jsInsertIndex_eq]

/-- A resolved live-preview event: package the source and destination lookups
together with the characterization of the resulting state. -/
theorem dragOver_resolved (s : AppState) (a o f t : ID)
    (hnd : (s.lists.map (·.id)).Nodup)
    (hfrom : findListIdByTask s.lists a = some f)
    (hto : resolveToListId s.lists o = some t)
    (hft : f ≠ t) :
    ∃ lf lt tk', findById s.lists f = some lf ∧ findById s.lists t = some lt
      ∧ findTaskById lf.tasks a = some tk' ∧ tk'.id = a
      ∧ handleDragOver s a o = { s with lists := s.lists.map (fun l =>
          if l.id = f then { l with tasks := lf.tasks.filter (fun x => x.id ≠ a) }
          else if l.id = t then { l with tasks := (spliceInsert lt.tasks
              (if o ∈ s.lists.map (·.id) then lt.tasks.length
               else (idxOfById lt.tasks o).getD lt.tasks.length) tk') }
          else l) } := by
  obtain ⟨lf, hlf_mem, hlf_id, tk0, htk0_mem, htk0_id⟩ := findListIdByTask_some hfrom
  have hfL : findById s.lists f = some lf := by
    rw [← hlf_id]
    exact findById_of_mem_nodup hnd hlf_mem
  obtain ⟨lt0, hlt0_mem, hlt0_id⟩ := resolveTo_mem hto
  have htL : findById s.lists t = some lt0 := by
    rw [← hlt0_id]
    exact findById_of_mem_nodup hnd hlt0_mem
  obtain ⟨tk', h1, h2, h3⟩ := findTaskById_isSome ⟨tk0, htk0_mem, htk0_id⟩
  exact ⟨lf, lt0, tk', hfL, htL, h1, h3,
    dragOver_success_eq s a o f t lf lt0 tk' hfrom hto hft hfL htL h1⟩

/-- C6: for a live-preview drag event whose endpoints resolve to distinct
lists (in a workspace with distinct list ids), the dragged task is removed
from the source list's sequence and inserted into the destination's sequence
at the end when the hover target is the destination container itself or an
item not found there, and at the hovered item's current index otherwise. -/
theorem c6_dragover_move (s : AppState) (a o f t : ID)
    (hnd : (s.lists.map (·.id)).Nodup)
    (hfrom : findListIdByTask s.lists a = some f)
    (hto : resolveToListId s.lists o = some t)
    (hft : f ≠ t) :
    ∃ lf lt tk', findById s.lists f = some lf ∧ findById s.lists t = some lt
      ∧ findTaskById lf.tasks a = some tk' ∧ tk'.id = a
      ∧ handleDragOver s a o = { s with lists := s.lists.map (fun l =>
          if l.id = f then { l with tasks := lf.tasks.filter (fun x => x.id ≠ a) }
          else if l.id = t then { l with tasks := (spliceInsert lt.tasks
              (if o ∈ s.lists.map (·.id) then lt.tasks.length
               else (idxOfById lt.tasks o).getD lt.tasks.length) tk') }
          else l) } :=
  dragOver_resolved s a o f t hnd hfrom hto hft

/-- C6, witness: dragging task 3 (in list 0) over task 5 (in list 1) of
`twoListsState` inserts it at index 0 of list 1 and removes it from list 0. -/
theorem c6_dragover_move_witness :
    ∃ lf lt tk', findById twoListsState.lists 0 = some lf
      ∧ findById twoListsState.lists 1 = some lt
      ∧ findTaskById lf.tasks 3 = some tk' ∧ tk'.id = 3
      ∧ handleDragOver twoListsState 3 5 =
          { twoListsState with lists := twoListsState.lists.map (fun l =>
            if l.id = 0 then { l with tasks := lf.tasks.filter (fun x => x.id ≠ 3) }
            else if l.id = 1 then { l with tasks := (spliceInsert lt.tasks
                (if 5 ∈ twoListsState.lists.map (·.id) then lt.tasks.length
                 else (idxOfById lt.tasks 5).getD lt.tasks.length) tk') }
            else l) } :=
  c6_dragover_move twoListsState 3 5 0 1 (by decide) (by decide) (by decide) (by decide)

theorem findTaskById_mem {tasks : List Task} {tid : ID} {tk : Task}
    (h : findTaskById tasks tid = some tk) : tk ∈ tasks ∧ tk.id = tid := by
  induction tasks with
  | nil => simp [findTaskById] at h
  | cons x rest ih =>
    by_cases hx : x.id = tid
    · simp only [findTaskById, if_pos hx, Option.some.injEq] at h
      subst h
      exact ⟨List.mem_cons_self _ _, hx⟩
    · simp only [findTaskById, if_neg hx] at h
      exact ⟨List.mem_cons_of_mem _ (ih h).1, (ih h).2⟩

theorem countTasks_two_update (s : AppState) (f t : ID) (A B : List Task)
    (fromL toL : TodoList) (hnd : (s.lists.map (·.id)).Nodup) (hft : f ≠ t)
    (hf : findById s.lists f = some fromL) (ht : findById s.lists t = some toL)
    (hA : A.length + 1 = fromL.tasks.length) (hB : B.length = toL.tasks.length + 1) :
    countTasks { s with lists := s.lists.map (fun l =>
        if l.id = f then { l with tasks := A }
        else if l.id = t then { l with tasks := B }
        else l) } = countTasks s := by
  show ((s.lists.map (fun l =>
      if l.id = f then { l with tasks := A }
      else if l.id = t then { l with tasks := B }
      else l)).map (fun l => l.tasks.length)).sum
    = (s.lists.map (fun l => l.tasks.length)).sum
  have e := two_update_sum A B hnd hft hf ht
  omega

theorem countTasks_pointwise (s : AppState) (F : TodoList → TodoList)
    (h : ∀ l, (F l).tasks.length = l.tasks.length) :
    countTasks { s with lists := s.lists.map F } = countTasks s := by
  show ((s.lists.map F).map (fun l => l.tasks.length)).sum
    = (s.lists.map (fun l => l.tasks.length)).sum
  rw [List.map_map]
  congr 1
  apply List.map_congr_left
  intro l _
  exact h l

set_option maxHeartbeats 1000000 in
theorem dragOver_conserves (s : AppState) (a o : ID)
    (hnd : (s.lists.map (·.id)).Nodup) (htn : (allTaskIds s).Nodup) :
    countTasks (handleDragOver s a o) = countTasks s := by
  cases hfrom : findListIdByTask s.lists a with
  | none =>
    unfold handleDragOver
    rw [hfrom]
  | some f =>
    cases hto : resolveToListId s.lists o with
    | none =>
      unfold handleDragOver
      rw [hfrom, hto]
    | some t =>
      by_cases hft : f = t
      · unfold handleDragOver
        simp [hfrom, hto, hft]
      · obtain ⟨lf, lt0, tk', hfL, htL, htk, htkid, heq⟩ :=
          dragOver_resolved s a o f t hnd hfrom hto hft
        rw [heq]
        have hlf_mem : lf ∈ s.lists := (findById_mem hfL).1
        have hlf_nodup : (lf.tasks.map (·.id)).Nodup := by
          have hmem2 : lf.tasks.map (·.id) ∈ s.lists.map (fun l => l.tasks.map (·.id)) :=
            List.mem_map_of_mem _ hlf_mem
          exact (List.nodup_flatten.1 htn).1 _ hmem2
        have htk_mem : tk' ∈ lf.tasks := (findTaskById_mem htk).1
        have hA := filter_ne_length hlf_nodup htk_mem htkid
        have hB := spliceInsert_length lt0.tasks
          (if o ∈ s.lists.map (·.id) then lt0.tasks.length
           else (idxOfById lt0.tasks o).getD lt0.tasks.length) tk'
        exact countTasks_two_update s f t
          (lf.tasks.filter (fun x => x.id ≠ a))
          (spliceInsert lt0.tasks
            (if o ∈ s.lists.map (·.id) then lt0.tasks.length
             else (idxOfById lt0.tasks o).getD lt0.tasks.length) tk')
          lf lt0 hnd hft hfL htL hA hB

theorem dragEnd_conserves (s : AppState) (a o : ID) :
    countTasks (handleDragEnd s a o) = countTasks s := by
  cases hfrom : findListIdByTask s.lists a with
  | none =>
    unfold handleDragEnd
    rw [hfrom]
  | some f =>
    cases hto : resolveToListId s.lists o with
    | none =>
      unfold handleDragEnd
      rw [hfrom, hto]
    | some t =>
      by_cases hft : f = t
      · subst hft
        cases hfL : findById s.lists f with
        | none =>
          unfold handleDragEnd
          simp [hfrom, hto, hfL]
        | some list =>
          unfold handleDragEnd
          simp only [hfrom, hto, hfL, eq_self_iff_true, if_true]
          split <;> split <;>
            first
              | rfl
              | (refine countTasks_pointwise s _ ?_
                 intro l
                 by_cases hl : l.id = list.id
                 · simp [hl, arrayMove_length]
                 · simp [hl])
      · unfold handleDragEnd
        simp [hfrom, hto, hft]

/-- C9: neither drag event changes the total number of tasks in the
workspace: the live-preview cross-list move removes exactly the dragged task
from the source and inserts exactly it into the destination, and the commit
reorder permutes within one list — given the workspace's id-uniqueness
invariants. -/
theorem c9_drag_conservation (s : AppState) (a o : ID)
    (hnd : (s.lists.map (·.id)).Nodup) (htn : (allTaskIds s).Nodup) :
    countTasks (handleDragOver s a o) = countTasks s
    ∧ countTasks (handleDragEnd s a o) = countTasks s :=
  ⟨dragOver_conserves s a o hnd htn, dragEnd_conserves s a o⟩

/-- C9, witness: a concrete cross-list drag and its commit on the two-list
workspace conserve the total task count. -/
theorem c9_drag_conservation_witness :
    countTasks (handleDragOver twoListsState 3 5) = countTasks twoListsState
    ∧ countTasks (handleDragEnd twoListsState 3 5) = countTasks twoListsState :=
  c9_drag_conservation twoListsState 3 5 (by decide) (by decide)

end Todo
